import Mathlib

/-!
Verification of the invocation-reconstruction core of the
PC-lint-JSON-compilation-database tool (`lint4jsondb.py`).

The embedding below translates, function by function, the pure core of the
source: the command tokenizer (`tokenize_command`), the two dialect visitors
(`GccCompatibleVisitor`, `MSVCCompatibleVisitor`), record finalization
(`JsonDbEntry.finish` over the module-level `TOKEN_VISITORS` list), the
streaming read loop over ijson `(prefix, event, value)` triples
(`Lint4JsonCompilationDb.read_json_db` / `start_item` / `end_item` /
`forward` / `JsonDbEntry.store`), and the include-only / exclude-all
post-load filtering.

Strings are Lean `String`s; the tokenizer walks the character list of its
input exactly as the Python `for i in command` loop walks the string.
Python's aliasing of `_store_next_param_in` to one of the two invocation
lists is rendered as an explicit capture-target tag.
-/

namespace Lint4JsonDb

/-- `Invocation` of the source: ordered `includes` and `defines` lists. -/
structure Invocation where
  includes : List String
  defines : List String
deriving DecidableEq, Repr

/-- Which list `_store_next_param_in` aliases in the source: the in-progress
invocation's `defines` or its `includes`. -/
inductive CaptureTarget where
  | defines
  | includes
deriving DecidableEq, Repr

/-- Appending a parameter to the list the capture target aliases. -/
def appendTo (inv : Invocation) (t : CaptureTarget) (param : String) : Invocation :=
  match t with
  | .defines => { inv with defines := inv.defines ++ [param] }
  | .includes => { inv with includes := inv.includes ++ [param] }

/-- Visitor scratch state: the in-progress `Invocation` plus the armed capture
target (`_store_next_param_in`, `none` when not armed).  `BaseVisitor.__init__`
starts with no armed target; `start_invocation` resets only the invocation. -/
structure VisitorState where
  invocation : Invocation
  store_next : Option CaptureTarget
deriving DecidableEq, Repr

/-- The state a visitor is in right after `start_invocation` on a fresh
module-level instance: empty invocation, no armed capture. -/
def initialVisitorState : VisitorState := ⟨⟨[], []⟩, none⟩

/-- `BaseVisitor.derive_invocation_from`: if a capture target is armed, append
the parameter to it and clear the armed state; otherwise do nothing. -/
def baseDeriveInvocationFrom (st : VisitorState) (param : String) : VisitorState :=
  match st.store_next with
  | some t => { invocation := appendTo st.invocation t param, store_next := none }
  | none => st

/-- Bool-valued "needle occurs as a contiguous substring of the haystack",
the semantics of Python's `needle in haystack` on strings, over char lists. -/
def subList (n : List Char) : List Char → Bool
  | [] => n.isEmpty
  | c :: cs => n.isPrefixOf (c :: cs) || subList n cs

/-- Python `needle in haystack` for strings. -/
def containsSub (hay needle : String) : Bool := subList needle.data hay.data

/-- Python `s.startswith(p)` (character-based). -/
def startsWithStr (s p : String) : Bool := p.data.isPrefixOf s.data

/-- Python slicing `s[n:]` (character-based). -/
def dropStr (s : String) (n : Nat) : String := String.mk (s.data.drop n)

/-- The char-list splitter behind Python `s.split(sep)` for a one-character
separator: splits at every occurrence, keeping empty parts. -/
def splitChars (sep : Char) : List Char → List (List Char)
  | [] => [[]]
  | c :: cs =>
    let r := splitChars sep cs
    if c = sep then [] :: r
    else
      match r with
      | h :: t => (c :: h) :: t
      | [] => [[c]]

/-- Python `s.split(sep)` for a one-character separator. -/
def splitOnChar (s : String) (sep : Char) : List String :=
  (splitChars sep s.data).map String.mk

/-- The tail component of `os.path.split` (POSIX): the characters after the
last `/`. -/
def basename (s : String) : String :=
  String.mk (s.data.foldl (fun acc c => if c = '/' then [] else acc ++ [c]) [])

/-- `GccCompatibleVisitor.COMMAND_PREFIXES`. -/
def COMMAND_PREFIXES : List String := ["clang", "clang++", "gcc", "cc", "g++", "c++", "cpp"]

/-- `GccCompatibleVisitor.matches`: the source computes
`_, executable = os.path.split(command)` but then tests
`any(cmd in command ...)` against the FULL `command` string, so the unused
`executable` plays no role; the embedding reproduces that. -/
def gccMatches (command : String) : Bool :=
  COMMAND_PREFIXES.any (fun cmd => containsSub command cmd)

/-- The basename-based matching rule as the spec words it ("the command's
executable basename contains, as a substring, any of a fixed recognized set").
Stated only to compare against `gccMatches`, which is what the source runs. -/
def gccMatchesSpecBasename (command : String) : Bool :=
  COMMAND_PREFIXES.any (fun cmd => containsSub (basename command) cmd)

/-- `GccCompatibleVisitor.derive_invocation_from`, branch for branch:
exact `-D` arms defines; a longer `-D...` token appends its remainder to
defines; exact `-I`/`-isystem` arms includes; a longer `-I...` token appends
its remainder to includes; everything else falls through to the base class
(which consumes an armed capture). -/
def gccDeriveInvocationFrom (st : VisitorState) (param : String) : VisitorState :=
  if param = "-D" then
    { st with store_next := some .defines }
  else if startsWithStr param "-D" then
    { st with invocation := { st.invocation with defines := st.invocation.defines ++ [dropStr param 2] } }
  else if param = "-I" ∨ param = "-isystem" then
    { st with store_next := some .includes }
  else if startsWithStr param "-I" then
    { st with invocation := { st.invocation with includes := st.invocation.includes ++ [dropStr param 2] } }
  else
    baseDeriveInvocationFrom st param

/-- `MSVCCompatibleVisitor.COMPILER`. -/
def COMPILER : List String := ["cl.exe"]

/-- `MSVCCompatibleVisitor.matches`: the executable (path tail) must be a
member of `COMPILER`. -/
def msvcMatches (command : String) : Bool := COMPILER.contains (basename command)

/-- `MSVCCompatibleVisitor.derive_invocation_from`: a token starting with
`/I` or `-I` arms includes, one starting with `/D` or `-D` arms defines; then,
still within the same call, an armed target receives `param[2:]` and the armed
state is cleared. -/
def msvcDeriveInvocationFrom (st : VisitorState) (param : String) : VisitorState :=
  let st1 :=
    if startsWithStr param "/I" ∨ startsWithStr param "-I" then
      { st with store_next := some CaptureTarget.includes }
    else if startsWithStr param "/D" ∨ startsWithStr param "-D" then
      { st with store_next := some CaptureTarget.defines }
    else st
  match st1.store_next with
  | some t => { invocation := appendTo st1.invocation t (dropStr param 2), store_next := none }
  | none => st1

/-- The loop body of `tokenize_command`: characters still to read, the
`current_token` (as its char list), the `in_string` flag, the tokens emitted
so far.  After the loop the source unconditionally appends `current_token`. -/
def tokenizeLoop : List Char → List Char → Bool → List String → List String
  | [], cur, _, toks => toks ++ [String.mk cur]
  | c :: cs, cur, ins, toks =>
    if c = '"' then
      tokenizeLoop cs cur (!ins) toks
    else if c = ' ' ∧ ins = false then
      if cur ≠ [] then tokenizeLoop cs [] ins (toks ++ [String.mk cur])
      else tokenizeLoop cs cur ins toks
    else
      tokenizeLoop cs (cur ++ [c]) ins toks

/-- `tokenize_command`. -/
def tokenize_command (command : String) : List String :=
  tokenizeLoop command.data [] false []

/-- `JsonDbEntry`, fields in source order.  `_tokens` starts empty and
`invocation` starts unset, as in `__init__`.  The source is dynamically
typed; the embedding types `directory`/`command`/`file` as optional strings
and the two list attributes as string lists, which covers every value the
modelled claims store (non-string scalars stored into these attributes would
crash later tokenization in the source and appear in no claim). -/
structure JsonDbEntry where
  directory : Option String := none
  command : Option String := none
  file : Option String := none
  arguments : List String := []
  _tokens : List String := []
  invocation : Option Invocation := none
deriving DecidableEq, Repr

/-- A scalar carried by an ijson event (containers arrive as start/end
boundary events, never as values). -/
inductive JScalar where
  | str (s : String)
  | num (n : Int)
  | jbool (b : Bool)
deriving DecidableEq, Repr

/-- `JsonDbEntry.store`: a `None` value is ignored; a known list attribute
(`arguments`, `_tokens`) appends the value, a known scalar attribute
(`directory`, `command`, `file`) is replaced; any unsupported attribute name
is silently eaten (the source catches `AttributeError`).  The source reaches
the attributes by `getattr`/`setattr`; the embedding spells the same five
attributes out by name. -/
def JsonDbEntry.store (e : JsonDbEntry) (name : String) (value : Option JScalar) : JsonDbEntry :=
  match value with
  | none => e
  | some (.str s) =>
    match name with
    | "directory" => { e with directory := some s }
    | "command" => { e with command := some s }
    | "file" => { e with file := some s }
    | "arguments" => { e with arguments := e.arguments ++ [s] }
    | "_tokens" => { e with _tokens := e._tokens ++ [s] }
    | _ => e
  | some _ => e

/-- Running one visitor over the non-executable tokens, from the state the
module-level instance is in after `start_invocation` (`TOKEN_VISITORS` is
built at import time with no armed capture; `start_invocation` resets only
the invocation, and no modelled claim leaves a capture armed across
records). -/
def runVisitor (derive : VisitorState → String → VisitorState)
    (rest : List String) : Invocation :=
  (rest.foldl derive initialVisitorState).invocation

/-- `JsonDbEntry.finish`.  Token source: a truthy (present, non-empty)
`command` is tokenized, then a non-empty `arguments` list overrides the
tokens.  The visitor loop is unrolled over the fixed
`TOKEN_VISITORS = [GccCompatibleVisitor(), MSVCCompatibleVisitor()]`: the
assert fires when there are zero tokens (checked identically on each of the
two iterations), and because the loop body ends in a no-op `continue` (not a
`break`), EVERY matching visitor runs and each later match overwrites
`self.invocation`; with no match the previous `invocation` value is kept. -/
def JsonDbEntry.finish (e : JsonDbEntry) : Except String JsonDbEntry :=
  let t1 := match e.command with
    | some c => if c = "" then e._tokens else tokenize_command c
    | none => e._tokens
  let toks := if e.arguments.length > 0 then e.arguments else t1
  match toks with
  | [] => .error "Need to have at least one token"
  | first :: rest =>
    let inv1 := if gccMatches first then some (runVisitor gccDeriveInvocationFrom rest)
                else e.invocation
    let inv2 := if msvcMatches first then some (runVisitor msvcDeriveInvocationFrom rest)
                else inv1
    .ok { e with _tokens := toks, invocation := inv2 }

/-- Reader state: `_current_item` and the accumulated `items`. -/
structure DbState where
  current : Option JsonDbEntry
  items : List JsonDbEntry
deriving DecidableEq, Repr

/-- `Lint4JsonCompilationDb.forward`: split the prefix on `.`; with more than
one part, store `value` under the second part into the current item.  When no
item is open the source dereferences `None` and dies with an
`AttributeError`. -/
def forward (st : DbState) (pre : String) (value : Option JScalar) : Except String DbState :=
  match splitOnChar pre '.' with
  | _ :: name :: _ =>
    match st.current with
    | none => .error "AttributeError: NoneType object has no attribute store"
    | some e => .ok { st with current := some (e.store name value) }
  | _ => .ok st

/-- One iteration of the `read_json_db` event loop: at prefix `item`, a
`start_map` opens a fresh record and an `end_map` finalizes it and appends it
to `items`; every other event goes through `forward`. -/
def readStep (st : DbState) (ev : String × String × Option JScalar) : Except String DbState :=
  match ev with
  | (pre, event, value) =>
    if pre = "item" then
      if event = "start_map" then .ok { st with current := some {} }
      else if event = "end_map" then
        match st.current with
        | none => .error "AttributeError: NoneType object has no attribute finish"
        | some e =>
          match e.finish with
          | .error msg => .error msg
          | .ok e2 => .ok { current := none, items := st.items ++ [e2] }
      else .ok st
    else forward st pre value

/-- `read_json_db` as a fold of `readStep` over the ijson event triples of the
document; an uncaught exception anywhere aborts the whole read. -/
def readJsonDb (events : List (String × String × Option JScalar)) : Except String (List JsonDbEntry) :=
  (events.foldlM readStep ⟨none, []⟩).map (fun st => st.items)

/-- Post-load filtering from `Lint4JsonCompilationDb.__init__`, with each
compiled regular expression abstracted to its anchored-match predicate on the
record's `file` (`re.match` tests from the start of the string): first, for
each include-only pattern in turn, keep only the items it matches; then, for
each exclude-all pattern in turn, drop the items it matches.  A record
without a `file` would crash `re.match` in the source and appears in no
claim; the embedding matches against the empty string there. -/
def filterItems (include_only exclude_all : List (String → Bool))
    (items : List JsonDbEntry) : List JsonDbEntry :=
  let afterInc := include_only.foldl
    (fun its r => its.filter (fun i => r (i.file.getD ""))) items
  exclude_all.foldl (fun its r => its.filter (fun i => !(r (i.file.getD "")))) afterInc

/- ijson event streams of the concrete documents the claims mention, written
out after ijson's documented prefixing rules: the root has prefix `""`, an
element of an array at prefix `p` has prefix `p.item` (or `item` at the
root), a value under key `k` of a map at prefix `p` has prefix `p.k` (or `k`
at the root); `start_map`/`end_map` and `start_array`/`end_array` carry no
value, `map_key` carries the key, scalar events carry the scalar. -/

/-- ijson events of the document `{}`. -/
def eventsEmptyMap : List (String × String × Option JScalar) :=
  [("", "start_map", none), ("", "end_map", none)]

/-- ijson events of the document `[]`. -/
def eventsEmptyArray : List (String × String × Option JScalar) :=
  [("", "start_array", none), ("", "end_array", none)]

/-- ijson events of the document `[{"key":"value"}]`. -/
def eventsKeyValue : List (String × String × Option JScalar) :=
  [("", "start_array", none),
   ("item", "start_map", none),
   ("item", "map_key", some (.str "key")),
   ("item.key", "string", some (.str "value")),
   ("item", "end_map", none),
   ("", "end_array", none)]

/-- ijson events of the document `{"a":{"b":1}}` — well-formed, not an
array, containing one nested map. -/
def eventsNestedMap : List (String × String × Option JScalar) :=
  [("", "start_map", none),
   ("", "map_key", some (.str "a")),
   ("a", "start_map", none),
   ("a", "map_key", some (.str "b")),
   ("a.b", "number", some (.num 1)),
   ("a", "end_map", none),
   ("", "end_map", none)]

/-! Helper lemmas. -/

theorem dropLast_append_single {α : Type} (l : List α) (a : α) : (l ++ [a]).dropLast = l := by
  simp

theorem mk_ne_empty {cur : List Char} (h : cur ≠ []) : String.mk cur ≠ "" :=
  fun he => h (congrArg String.data he)

theorem tokenizeLoop_ne_nil (cs cur : List Char) (ins : Bool) (toks : List String) :
    tokenizeLoop cs cur ins toks ≠ [] := by
  induction cs generalizing cur ins toks with
  | nil => simp [tokenizeLoop]
  | cons c cs ih =>
    simp only [tokenizeLoop]
    split
    · exact ih _ _ _
    · split
      · split
        · exact ih _ _ _
        · exact ih _ _ _
      · exact ih _ _ _

theorem tokenizeLoop_internal_nonempty (cs cur : List Char) (ins : Bool) (toks : List String)
    (h : ∀ t ∈ toks, t ≠ "") :
    ∀ t ∈ (tokenizeLoop cs cur ins toks).dropLast, t ≠ "" := by
  induction cs generalizing cur ins toks with
  | nil =>
    rw [tokenizeLoop, dropLast_append_single]
    exact h
  | cons c cs ih =>
    simp only [tokenizeLoop]
    split
    · exact ih _ _ _ h
    · split
      · split
        · next hcur =>
          apply ih
          intro t ht
          rcases List.mem_append.mp ht with hmem | hmem
          · exact h t hmem
          · rcases List.mem_singleton.mp hmem with rfl
            exact mk_ne_empty hcur
        · exact ih _ _ _ h
      · exact ih _ _ _ h

theorem tokenizeLoop_quote_free (cs cur : List Char) (ins : Bool) (toks : List String)
    (hc : '"' ∉ cur) (ht : ∀ t ∈ toks, '"' ∉ t.data) :
    ∀ t ∈ tokenizeLoop cs cur ins toks, '"' ∉ t.data := by
  induction cs generalizing cur ins toks with
  | nil =>
    rw [tokenizeLoop]
    intro t htm
    rcases List.mem_append.mp htm with hmem | hmem
    · exact ht t hmem
    · rcases List.mem_singleton.mp hmem with rfl
      exact hc
  | cons c cs ih =>
    simp only [tokenizeLoop]
    split
    · exact ih _ _ _ hc ht
    · next hq =>
      split
      · split
        · apply ih
          · simp
          · intro t htm
            rcases List.mem_append.mp htm with hmem | hmem
            · exact ht t hmem
            · rcases List.mem_singleton.mp hmem with rfl
              exact hc
        · exact ih _ _ _ hc ht
      · apply ih _ _ _ _ ht
        intro hmem
        rcases List.mem_append.mp hmem with hmem' | hmem'
        · exact hc hmem'
        · rcases List.mem_singleton.mp hmem' with rfl
          exact hq rfl

theorem foldl_filter {α β : Type} (f : α → β → Bool) (rs : List α) (items : List β) :
    rs.foldl (fun its r => its.filter (f r)) items =
      items.filter (fun b => rs.all (fun r => f r b)) := by
  induction rs generalizing items with
  | nil => simp
  | cons r rs ih =>
    simp only [List.foldl_cons, ih, List.filter_filter, List.all_cons]
    congr 1
    funext b
    exact Bool.and_comm _ _

/-! Claim theorems. -/

/-- C1: the source's visitor loop in `JsonDbEntry.finish` ends in a no-op
`continue` rather than a `break`, so when more than one registered visitor
matches the first token, each later match overwrites `self.invocation` and
the LAST matching visitor wins, not the first.  Evaluated at the failing
input `arguments = ["clang/cl.exe", "-isystem", "x"]`: both visitors match
the first token; the GCC-compatible visitor (first in `TOKEN_VISITORS`)
derives `includes = ["x"]`, but `finish` returns the MSVC-compatible
visitor's empty invocation. -/
theorem finish_last_matching_visitor_wins :
    gccMatches "clang/cl.exe" = true ∧
    msvcMatches "clang/cl.exe" = true ∧
    runVisitor gccDeriveInvocationFrom ["-isystem", "x"] = ⟨["x"], []⟩ ∧
    JsonDbEntry.finish { arguments := ["clang/cl.exe", "-isystem", "x"] } =
      .ok { arguments := ["clang/cl.exe", "-isystem", "x"],
            _tokens := ["clang/cl.exe", "-isystem", "x"],
            invocation := some ⟨[], []⟩ } :=
  ⟨by decide, by decide, by decide, rfl⟩

/-- C2: `GccCompatibleVisitor.matches` computes the executable basename via
`os.path.split` but then tests the recognized compiler names against the FULL
command string (the `executable` variable is unused), so directory components
do change the decision: `"gcc/app.exe"` matches even though its basename
`"app.exe"` contains no recognized name.  The spec's basename-only rule
(`gccMatchesSpecBasename`) disagrees there.  The claim's concrete examples
(`"clang++"` matches, `"cl.exe.backup"` matches neither visitor) do hold. -/
theorem gccMatches_full_command_not_basename :
    basename "gcc/app.exe" = "app.exe" ∧
    gccMatches "gcc/app.exe" = true ∧
    gccMatchesSpecBasename "gcc/app.exe" = false ∧
    gccMatches "clang++" = true ∧
    gccMatches "cl.exe.backup" = false ∧
    msvcMatches "cl.exe.backup" = false := by
  decide

/-- C3 counterexample: `tokenize_command` unconditionally appends the final
`current_token`, so the empty input yields `[""]` — a non-empty result
containing an empty token — and a trailing separator yields a trailing empty
token; this refutes both "the result contains no empty tokens" and "the
result is the empty sequence exactly when the input is empty". -/
theorem tokenize_trailing_empty_counterexample :
    tokenize_command "" = [""] ∧
    tokenize_command "a " = ["a", ""] ∧
    "" ∈ tokenize_command "" := by
  decide

/-- C3 (amended): every token of `tokenize_command s` other than the last is
non-empty (consecutive separators emit nothing), and the result is never the
empty sequence — the trailing `current_token`, possibly empty, is always
emitted. -/
theorem tokenize_no_internal_empty_tokens (s : String) :
    tokenize_command s ≠ [] ∧
    ((tokenize_command s).dropLast.all (fun t => !(t == ""))) = true := by
  refine ⟨tokenizeLoop_ne_nil _ _ _ _, ?_⟩
  rw [List.all_eq_true]
  intro t ht
  have hne := tokenizeLoop_internal_nonempty s.data [] false [] (by simp) t ht
  simpa using hne

/-- C4 counterexample: with the two include-only patterns `"a"` and `"ab"`
(anchored-prefix predicates, exactly what `re.match` does for these literal
regexes), the record with `file = "ax"` matches the first pattern and yet is
dropped, because the source applies each include-only pattern as a separate
sequential filter (intersection), not as a union. -/
theorem include_only_union_counterexample :
    filterItems [fun s => startsWithStr s "a", fun s => startsWithStr s "ab"] []
      [{ file := some "ax" }] = [] ∧
    startsWithStr "ax" "a" = true :=
  ⟨rfl, rfl⟩

/-- C4 (amended): the post-load filtering keeps exactly the records whose
`file` matches EVERY include-only pattern (so the include-only stage is an
intersection over patterns; an empty pattern set keeps everything) and no
exclude-all pattern; it is a single order-preserving filter pass. -/
theorem filterItems_intersection_semantics (inc exc : List (String → Bool))
    (items : List JsonDbEntry) :
    filterItems inc exc items =
      items.filter (fun i =>
        inc.all (fun r => r (i.file.getD "")) && exc.all (fun r => !(r (i.file.getD "")))) := by
  unfold filterItems
  rw [foldl_filter, foldl_filter, List.filter_filter]
  congr 1
  funext i
  exact Bool.and_comm _ _

/-- C5 counterexample: with the includes target armed (as after a bare `-I`),
the token `"-DX"` is NOT appended verbatim to includes with the armed state
cleared; the `-D`-prefix branch runs first, appends `"X"` to defines and
leaves the armed target in place.  This refutes "the armed-capture rule is
applied first, before the flag-prefix tests". -/
theorem gcc_flag_tests_precede_armed_capture_counterexample :
    gccDeriveInvocationFrom ⟨⟨[], []⟩, some CaptureTarget.includes⟩ "-DX" =
      ⟨⟨[], ["X"]⟩, some CaptureTarget.includes⟩ ∧
    gccDeriveInvocationFrom ⟨⟨[], []⟩, some CaptureTarget.includes⟩ "-DX" ≠
      ⟨⟨["-DX"], []⟩, none⟩ := by
  decide

/-- C5 (amended): the armed-capture rule of the GCC-compatible visitor is
applied LAST, not first: when a capture target is armed and the current token
triggers none of the `-D`/`-I`/`-isystem` flag branches, the token is
appended verbatim to the armed target and the armed state is cleared. -/
theorem gcc_armed_capture_when_not_flag (st : VisitorState) (t : CaptureTarget) (tok : String)
    (harm : st.store_next = some t)
    (hD : startsWithStr tok "-D" = false)
    (hI : startsWithStr tok "-I" = false)
    (hsys : tok ≠ "-isystem") :
    gccDeriveInvocationFrom st tok =
      { invocation := appendTo st.invocation t tok, store_next := none } := by
  have hD' : tok ≠ "-D" := by rintro rfl; exact absurd hD (by decide)
  have hI' : tok ≠ "-I" := by rintro rfl; exact absurd hI (by decide)
  unfold gccDeriveInvocationFrom baseDeriveInvocationFrom
  simp [hD, hI, hD', hI', hsys, harm]

/-- Witness for the amended C5 theorem at a concrete armed state and a
non-flag token. -/
theorem gcc_armed_capture_when_not_flag_witness :
    gccDeriveInvocationFrom ⟨⟨[], []⟩, some CaptureTarget.includes⟩ "path" =
      ⟨⟨["path"], []⟩, none⟩ :=
  gcc_armed_capture_when_not_flag ⟨⟨[], []⟩, some CaptureTarget.includes⟩
    CaptureTarget.includes "path" rfl (by decide) (by decide) (by decide)

/-- C6: quote handling of `tokenize_command`: no produced token ever contains
a double-quote character (the quote only toggles the in-string mode and is
dropped); spaces inside a double-quote region do not separate tokens
(`a "b c" d` yields the three tokens `a`, `b c`, `d`); an unterminated quote
is tolerated, the remainder staying in-string to the end. -/
theorem tokenize_quote_handling :
    (∀ s : String, ((tokenize_command s).all (fun t => t.data.all (fun c => !(c == '"')))) = true)
    ∧ tokenize_command "a \"b c\" d" = ["a", "b c", "d"]
    ∧ tokenize_command "a \"b c" = ["a", "b c"] := by
  refine ⟨?_, by decide, by decide⟩
  intro s
  rw [List.all_eq_true]
  intro t ht
  have hq := tokenizeLoop_quote_free s.data [] false [] (by simp) (by simp) t ht
  rw [List.all_eq_true]
  intro c hc
  simp only [Bool.not_eq_true', beq_eq_false_iff_ne, ne_eq]
  rintro rfl
  exact hq hc

/-- C7: when `arguments` is non-empty it is the token source: the resulting
`_tokens` are exactly `arguments`, and the `command` string has no effect on
the resulting tokens or invocation (replacing it by absent changes
neither). -/
theorem arguments_take_precedence_over_command (d f : Option String) (c : String)
    (args tks : List String) (inv : Option Invocation) (h : args ≠ []) :
    (JsonDbEntry.finish ⟨d, some c, f, args, tks, inv⟩).map (fun r => (r._tokens, r.invocation)) =
      (JsonDbEntry.finish ⟨d, none, f, args, tks, inv⟩).map (fun r => (r._tokens, r.invocation)) ∧
    (JsonDbEntry.finish ⟨d, some c, f, args, tks, inv⟩).map (fun r => r._tokens) = .ok args := by
  cases args with
  | nil => exact absurd rfl h
  | cons a as =>
    constructor <;> (unfold JsonDbEntry.finish; simp [Except.map])

/-- Witness for C7 at a concrete record carrying both a command and a
non-empty argument array. -/
theorem arguments_take_precedence_over_command_witness :
    (JsonDbEntry.finish ⟨none, some "cc file.c", none, ["gcc", "-DX"], [], none⟩).map
        (fun r => (r._tokens, r.invocation)) =
      (JsonDbEntry.finish ⟨none, none, none, ["gcc", "-DX"], [], none⟩).map
        (fun r => (r._tokens, r.invocation)) :=
  (arguments_take_precedence_over_command none none "cc file.c" ["gcc", "-DX"] [] none
    (by decide)).1

/-- C8: a record finalized with zero tokens — `command` absent or empty
(Python falsiness), `arguments` empty, nothing stored in `_tokens` — fails
with the "Need to have at least one token" contract violation, and that
error aborts the whole read: the one-record database `[{"key":"value"}]`
makes `read_json_db` fail with exactly that error. -/
theorem zero_tokens_finish_fails :
    (∀ e : JsonDbEntry, (e.command = none ∨ e.command = some "") → e.arguments = [] →
      e._tokens = [] → e.finish = .error "Need to have at least one token")
    ∧ readJsonDb eventsKeyValue = .error "Need to have at least one token" := by
  refine ⟨?_, rfl⟩
  intro e h1 h2 h3
  unfold JsonDbEntry.finish
  rcases h1 with h | h <;> simp [h, h2, h3]

/-- Witness for C8 at the freshly constructed record (all fields at their
`__init__` defaults). -/
theorem zero_tokens_finish_fails_witness :
    JsonDbEntry.finish {} = .error "Need to have at least one token" :=
  zero_tokens_finish_fails.1 {} (Or.inl rfl) rfl rfl

/-- C9 counterexample: the claim generalizes to every well-formed non-array
document, but reading `{"a":{"b":1}}` — well-formed and not an array — does
raise: the nested value event arrives with prefix `"a.b"` while no record is
open, and `forward` dereferences `self._current_item = None`. -/
theorem nonarray_nested_document_errors_counterexample :
    readJsonDb eventsNestedMap =
      .error "AttributeError: NoneType object has no attribute store" :=
  rfl

/-- C9 (amended): the two documents the spec names behave as claimed — `{}`
(well-formed, not an array) and the empty array `[]` both read to zero
records without an error. -/
theorem empty_map_and_empty_array_zero_records :
    readJsonDb eventsEmptyMap = .ok [] ∧ readJsonDb eventsEmptyArray = .ok [] :=
  ⟨rfl, rfl⟩

/-- C10: in the MSVC-compatible visitor a bare two-character flag token —
exactly `/I`, `-I`, `/D` or `-D` — appends the empty remainder `param[2:]`
to the corresponding list within the same call (there is no two-token form;
the empty string is recorded, not skipped), leaving no armed state behind. -/
theorem msvc_bare_flag_appends_empty_remainder (inv : Invocation) :
    msvcDeriveInvocationFrom ⟨inv, none⟩ "/I" = ⟨⟨inv.includes ++ [""], inv.defines⟩, none⟩ ∧
    msvcDeriveInvocationFrom ⟨inv, none⟩ "-I" = ⟨⟨inv.includes ++ [""], inv.defines⟩, none⟩ ∧
    msvcDeriveInvocationFrom ⟨inv, none⟩ "/D" = ⟨⟨inv.includes, inv.defines ++ [""]⟩, none⟩ ∧
    msvcDeriveInvocationFrom ⟨inv, none⟩ "-D" = ⟨⟨inv.includes, inv.defines ++ [""]⟩, none⟩ :=
  ⟨rfl, rfl, rfl, rfl⟩

end Lint4JsonDb
